import Mathlib

/-!
Verification of the telegram-gallery-downloader-bot job pipeline.

Shallow embedding of the relevant source files:
  - src/scrapers/jsdomScraper.js   (resolveUrl, filterImages, extractImages)
  - src/scrapers/strategyEngine.js (extractDomain, getStrategy, findWorkingStrategy)
  - src/downloaders/imageDownloader.js (downloadImage, downloadImages,
    downloadMultipleGalleries; the AbortSignal-aware version)
  - src/bot.js (per-URL step of processGalleries, the cancel command handler,
    the cancel_download action handler, the text handler)

Platform primitives (the WHATWG URL constructor, the DOM query, the network,
the filesystem and the event-loop clock) are parameters of the embedding:
pure oracles supplied to each definition. Machine-level JS semantics that the
code relies on (String.prototype.startsWith / includes / replace with a
literal pattern, Set insertion order) are embedded as executable list
functions below.
-/

namespace GalleryBot

/-- Model of JS `s.startsWith(pat)` on character lists. -/
def startsWithL : List Char → List Char → Bool
  | _, [] => true
  | [], _ :: _ => false
  | a :: s, b :: p => a == b && startsWithL s p

/-- JS `String.prototype.startsWith`. -/
def strStarts (s pat : String) : Bool := startsWithL s.data pat.data

/-- Model of JS `s.includes(pat)` (substring containment) on character lists. -/
def includesL : List Char → List Char → Bool
  | [], pat => startsWithL [] pat
  | a :: s, pat => startsWithL (a :: s) pat || includesL s pat

/-- JS `String.prototype.includes`. -/
def strIncludes (s pat : String) : Bool := includesL s.data pat.data

/-- Model of JS `s.replace(pat, "")` with a literal string pattern:
removes the first occurrence of `pat` (and only that one). -/
def removeFirstL (s pat : List Char) : List Char :=
  match s with
  | [] => []
  | a :: t =>
    if startsWithL (a :: t) pat then (a :: t).drop pat.length
    else a :: removeFirstL t pat

/-- JS `s.replace(pat, "")` for a literal (non-regex) pattern. -/
def removeFirst (s pat : String) : String := ⟨removeFirstL s.data pat.data⟩

/-- Model of `[...new Set(list)]`: JS Sets iterate in insertion order and
insertion skips elements already present, so the spread keeps the first
occurrence of each element in order. `seen` is the set built so far. -/
def setDedupAux (seen : List String) : List String → List String
  | [] => []
  | x :: xs =>
    if x ∈ seen then setDedupAux seen xs
    else x :: setDedupAux (x :: seen) xs

/-- `[...new Set(l)]`. -/
def setDedup (l : List String) : List String := setDedupAux [] l

/-- `strategy.images` in siteStrategies.json: selector, attribute and
thumbnail filter patterns. -/
structure ImagesConfig where
  selector : String
  attr : String
  filterPatterns : List String
deriving Repr, DecidableEq

/-- One per-domain extraction rule from siteStrategies.json. -/
structure Strategy where
  name : String
  images : ImagesConfig
  useProxy : Bool := false
deriving Repr, DecidableEq

/-- A loaded registry: `this.strategies` after `loadStrategies()`.
JS object keys are unique and iterated in insertion order, so the registry
is an association list with nodup keys. -/
abbrev Registry := List (String × Strategy)

/-! ## JsdomScraper -/

/-- `JsdomScraper.resolveUrl(imgUrl, pageUrl)` from src/scrapers/jsdomScraper.js.
`parse u p` models `new URL(u, p).href` (`none` models the constructor
throwing). A null raw attribute and the empty string are both falsy in JS,
so the null case is fed in as `""`. -/
def resolveUrl (parse : String → String → Option String)
    (imgUrl pageUrl : String) : Option String :=
  if imgUrl = "" then none
  else if strStarts imgUrl "//" then some ("https:" ++ imgUrl)
  else if strStarts imgUrl "http://" || strStarts imgUrl "https://" then some imgUrl
  else parse imgUrl pageUrl

/-- `JsdomScraper.filterImages(urls, filterPatterns)`. -/
def filterImages (urls : List String) (filterPatterns : List String) : List String :=
  if filterPatterns.isEmpty then urls
  else urls.filter (fun url => !(filterPatterns.any (fun pat => strIncludes url pat)))

/-- `JsdomScraper.extractImages(url, strategy)`, from the point where the DOM
query has produced the matched elements. `rawAttrs` is the list of
`element.getAttribute(attr)` results in document order (`none` = null);
fetching and DOM parsing are the platform and their failures propagate as
thrown errors before this pipeline runs. -/
def resolvedUrls (parse : String → String → Option String)
    (rawAttrs : List (Option String)) (url : String) : List String :=
  rawAttrs.filterMap (fun raw => resolveUrl parse (raw.getD "") url)

def extractImages (parse : String → String → Option String)
    (rawAttrs : List (Option String)) (url : String) (strategy : Strategy) :
    List String :=
  let urls := resolvedUrls parse rawAttrs url
  let filteredUrls := filterImages urls strategy.images.filterPatterns
  setDedup filteredUrls

/-- The position of the first occurrence of `u` in `l` (recording the
discovery order of each URL; `l.length` when absent). -/
def firstIdx : List String → String → Nat
  | [], _ => 0
  | x :: xs, u => if x = u then 0 else firstIdx xs u + 1

/-! ## StrategyEngine -/

/-- `StrategyEngine.extractDomain(url)` after the platform URL parse: the
input here is the already-extracted `urlObj.hostname` (a malformed URL makes
the constructor throw, surfaced as InvalidUrl, before this point).
`hostname.replace('www.', '')` removes the first occurrence of `www.`. -/
def extractDomain (hostname : String) : String := removeFirst hostname "www."

/-- `StrategyEngine.getStrategy(url)` on a loaded registry:
`this.strategies[domain]`, null when absent. -/
def getStrategy (strategies : Registry) (hostname : String) : Option Strategy :=
  List.lookup (extractDomain hostname) strategies

/-- The resolution step described by the spec sentence of claim C6, written
from its words: take the hostname, strip a LEADING `www.`, and look that key
up exactly. Kept separate from `getStrategy` (the source translation) so the
two can be compared. -/
def getStrategySpecLeading (strategies : Registry) (hostname : String) :
    Option Strategy :=
  let domain := if strStarts hostname "www." then ⟨hostname.data.drop 4⟩ else hostname
  List.lookup domain strategies

/-- The resolution step with the amended wording: remove the FIRST occurrence
of the substring `www.` anywhere in the hostname, then exact lookup. -/
def getStrategySpecAmended (strategies : Registry) (hostname : String) :
    Option Strategy :=
  List.lookup (removeFirst hostname "www.") strategies

/-- `StrategyEngine.findWorkingStrategy(url, JsdomScraper, minImages)` on a
loaded registry. `extract s` models `await JsdomScraper.extractImages(url, s)`
for the fixed url: `.ok images` a normal return, `.error msg` a throw (which
the loop swallows and continues). Iteration order is `Object.entries` order,
i.e. the registry list order. -/
def findWorkingStrategy (extract : Strategy → Except String (List String))
    (strategies : Registry) (minImages : Nat) : Option (Strategy × List String) :=
  match strategies with
  | [] => none
  | (_, strat) :: rest =>
    match extract strat with
    | .ok images =>
      if minImages ≤ images.length then some (strat, images)
      else findWorkingStrategy extract rest minImages
    | .error _ => findWorkingStrategy extract rest minImages

/-- The boolean test `findWorkingStrategy` applies to one registry entry:
extraction returned normally with at least `minImages` images. -/
def strategyWorks (extract : Strategy → Except String (List String))
    (minImages : Nat) (strat : Strategy) : Bool :=
  match extract strat with
  | .ok images => decide (minImages ≤ images.length)
  | .error _ => false

/-! ## ImageDownloader.downloadImage

The per-image download with retry and AbortSignal support. The event history
of one call is an oracle `DownloadEnv`: for each attempt number k (1-based),
the signal state observed at the top of the loop body (`pre k`), the result
of the awaited axios request plus file write (`outcome k`), and the signal
state observed in the catch block (`post k`). `AttemptOutcome.canceled`
models an error with code ERR_CANCELED (the request was aborted mid-flight).
The run returns the boolean result together with how many attempts were
actually issued and which retry delays (in ms) were waited, so that the
retry discipline is observable. -/

inductive AttemptOutcome
  | ok
  | canceled
  | netFail
deriving Repr, DecidableEq

structure DownloadEnv where
  pre : Nat → Bool
  post : Nat → Bool
  outcome : Nat → AttemptOutcome

structure DownloadRun where
  success : Bool
  attemptsStarted : Nat
  delays : List Nat
deriving Repr, DecidableEq

/-- The `for (let attempt = 1; attempt <= retries; attempt++)` loop of
`downloadImage`. `fuel` is the number of loop iterations still permitted
(`retries - attempt + 1`); exhausting it is the fall-through
`return false` after the loop. -/
def downloadImageGo (env : DownloadEnv) (retries : Nat) :
    Nat → Nat → DownloadRun
  | _, 0 => ⟨false, 0, []⟩
  | attempt, fuel + 1 =>
    if env.pre attempt then ⟨false, 0, []⟩
    else
      match env.outcome attempt with
      | .ok => ⟨true, 1, []⟩
      | .canceled => ⟨false, 1, []⟩
      | .netFail =>
        if env.post attempt then ⟨false, 1, []⟩
        else if attempt = retries then ⟨false, 1, []⟩
        else
          let r := downloadImageGo env retries (attempt + 1) fuel
          ⟨r.success, r.attemptsStarted + 1, 1000 * attempt :: r.delays⟩

/-- `ImageDownloader.downloadImage(url, outputPath, retries = 3, signal)`. -/
def downloadImage (env : DownloadEnv) (retries : Nat := 3) : DownloadRun :=
  downloadImageGo env retries 1 retries

/-! ## ImageDownloader.downloadImages / downloadMultipleGalleries

The engine is single-threaded and event-driven: the cancellation token can
only change state across an await. Every `await Promise.all(window)` and the
`await fs.mkdir` before each gallery advance a logical clock `t`; the signal
is an arbitrary boolean schedule `sig : Nat → Bool` over that clock. The
per-item check `if (signal && signal.aborted) return;` inside `batch.map`
runs synchronously with the window-start check (no await separates them), so
it observes the same state and is folded into the window-start check. Each
dispatched item settles to the boolean returned by `downloadImage`, supplied
by the oracle `ok` (a mid-flight abort makes `downloadImage` return false,
which the engine counts as failed); output paths are supplied by the oracle
`genPath` (an abstraction of `generateFilename` + `path.join`, which only
depend on the url and index). Within one window the completion order of
items is scheduler-dependent; the counts are order-independent and the files
list is modeled in index order. -/

/-- `urls.slice(i, i + concurrency)` windows, structurally recursive on a
fuel argument so that runs evaluate by kernel reduction; the fuel is set to
the list length by `chunks` and never runs out when `conc ≥ 1`. -/
def chunksF {α : Type} (conc : Nat) : Nat → List α → List (List α)
  | _, [] => []
  | 0, _ :: _ => []
  | fuel + 1, x :: xs =>
    if conc = 0 then []
    else (x :: xs).take conc :: chunksF conc fuel ((x :: xs).drop conc)

/-- The windows of the `for (let i = 0; i < urls.length; i += concurrency)`
loop: the items of each loop iteration. With `conc = 0` the JS loop would
never terminate; the embedding returns no windows, and every claim about the
engine assumes `conc ≥ 1`. -/
def chunks {α : Type} (conc : Nat) (items : List α) : List (List α) :=
  chunksF conc items.length items

/-- Pair each url with its 1-based index. -/
def enumFrom (i : Nat) : List String → List (Nat × String)
  | [] => []
  | u :: us => (i, u) :: enumFrom (i + 1) us

structure WindowsAcc where
  success : Nat
  failed : Nat
  files : List String
  windowStarts : List (Nat × Nat)
  endT : Nat
deriving Repr, DecidableEq

/-- The window loop of `downloadImages`: at each window start the signal is
checked (`if (signal && signal.aborted) break;`); a dispatched window settles
every item (success or failure) and advances the clock. `windowStarts`
records the (tick, window size) of each dispatched window. -/
def dlWindows (sig : Nat → Bool) (ok : Nat → Bool) (genPath : Nat → String) :
    List (List (Nat × String)) → Nat → WindowsAcc
  | [], t => ⟨0, 0, [], [], t⟩
  | w :: ws, t =>
    if sig t then ⟨0, 0, [], [], t⟩
    else
      let succ := w.filter (fun item => ok item.1)
      let fails := w.filter (fun item => !ok item.1)
      let rest := dlWindows sig ok genPath ws (t + 1)
      ⟨succ.length + rest.success, fails.length + rest.failed,
       succ.map (fun item => genPath item.1) ++ rest.files,
       (t, w.length) :: rest.windowStarts, rest.endT⟩

structure ImagesRun where
  total : Nat
  success : Nat
  failed : Nat
  files : List String
  windowStarts : List (Nat × Nat)
  endT : Nat
deriving Repr, DecidableEq

/-- `ImageDownloader.downloadImages(urls, outputDir, concurrency, cb, signal)`
starting at clock tick `t0`. `results.total` is set to `urls.length` up
front. -/
def downloadImages (sig : Nat → Bool) (ok : Nat → Bool) (genPath : Nat → String)
    (urls : List String) (conc : Nat) (t0 : Nat) : ImagesRun :=
  let acc := dlWindows sig ok genPath (chunks conc (enumFrom 1 urls)) t0
  ⟨urls.length, acc.success, acc.failed, acc.files, acc.windowStarts, acc.endT⟩

structure GalleryInput where
  name : String
  urls : List String
deriving Repr, DecidableEq

structure MultiRun where
  totalGalleries : Nat
  completedGalleries : Nat
  totalImages : Nat
  successImages : Nat
  failedImages : Nat
  galleries : List (String × ImagesRun)
  cancelled : Bool
  galleryStarts : List Nat
  windowStarts : List (Nat × Nat)
  endT : Nat
deriving Repr, DecidableEq

/-- The gallery loop of `downloadMultipleGalleries`: before each gallery the
signal is checked (abort sets `cancelled` and breaks); `await fs.mkdir`
advances the clock by one tick before the windows of the gallery run; after
each gallery the signal is checked again (abort sets `cancelled` and
breaks). `completedGalleries` is incremented before the post-gallery check,
exactly as in the source. `ok gi` and `genPath gi` are the per-item oracles
of gallery number `gi` (0-based position). -/
def dmgGo (sig : Nat → Bool) (ok : Nat → Nat → Bool) (genPath : Nat → Nat → String)
    (conc : Nat) : List GalleryInput → Nat → Nat → MultiRun
  | [], _, t => ⟨0, 0, 0, 0, 0, [], false, [], [], t⟩
  | g :: gs, gi, t =>
    if sig t then ⟨0, 0, 0, 0, 0, [], true, [], [], t⟩
    else
      let r := downloadImages sig (ok gi) (genPath gi) g.urls conc (t + 1)
      if sig r.endT then
        ⟨0, 1, r.total, r.success, r.failed, [(g.name, r)], true,
         [t], r.windowStarts, r.endT⟩
      else
        let rest := dmgGo sig ok genPath conc gs (gi + 1) r.endT
        ⟨0, 1 + rest.completedGalleries, r.total + rest.totalImages,
         r.success + rest.successImages, r.failed + rest.failedImages,
         (g.name, r) :: rest.galleries, rest.cancelled,
         t :: rest.galleryStarts, r.windowStarts ++ rest.windowStarts, rest.endT⟩

/-- `ImageDownloader.downloadMultipleGalleries(galleries, dir, cb, signal,
concurrency)` starting at clock tick `t0`. `results.totalGalleries` is set to
`galleries.length` up front. -/
def downloadMultipleGalleries (sig : Nat → Bool) (ok : Nat → Nat → Bool)
    (genPath : Nat → Nat → String) (galleries : List GalleryInput)
    (conc : Nat) (t0 : Nat) : MultiRun :=
  { dmgGo sig ok genPath conc galleries 0 t0 with
    totalGalleries := galleries.length }

/-! ## bot.js: sessions, handlers, and the per-URL step of processGalleries -/

inductive SessState
  | idle
  | processing
  | waitingName
deriving Repr, DecidableEq

structure PendingJob where
  urls : List String
  archiveName : String
deriving Repr, DecidableEq

/-- A per-user session record from the `userSessions` map. `abortFlag`
models `session.abortController`: `none` is null / absent, `some b` is a
controller whose signal has `aborted = b`. -/
structure Session where
  state : SessState
  pendingJob : Option PendingJob := none
  abortFlag : Option Bool := none
deriving Repr, DecidableEq

/-- The user-visible responses the modeled handlers can produce. -/
inductive Reply
  | invalidNameChars
  | invalidNameLength
  | nameSet (name : String)
  | alreadyProcessing
  | noValidUrls
  | namePrompt (defaultName : String)
  | jobRunning
  | cancelledReady
deriving Repr, DecidableEq

/-- One character of `VALID_NAME_REGEX = /^[a-zA-Z0-9\-._]+$/`. -/
def validNameChar (c : Char) : Bool :=
  (('a' ≤ c && c ≤ 'z') || ('A' ≤ c && c ≤ 'Z') || ('0' ≤ c && c ≤ '9')
    || c == '-' || c == '.' || c == '_')

/-- `VALID_NAME_REGEX.test(input)`. -/
def validName (s : String) : Bool :=
  !s.data.isEmpty && s.data.all validNameChar

/-- The `bot.on('text', ...)` handler. `defaultNameOf` abstracts
`buildDefaultName` (it reads the wall clock via `Date.now()`).
`.error ()` models the TypeError thrown when the waiting-name branch runs
with `pendingJob` null (`session.pendingJob.archiveName = input`); that
exception is handled by `bot.catch`, outside this handler. -/
def textHandler (session : Session) (text : String)
    (defaultNameOf : List String → String) : Except Unit (Session × Reply) :=
  if session.state = .waitingName then
    let input := text.trim
    if !validName input then .ok (session, .invalidNameChars)
    else if input.length < 2 || 80 < input.length then
      .ok (session, .invalidNameLength)
    else
      match session.pendingJob with
      | none => .error ()
      | some job =>
        .ok ({ session with
                pendingJob := some { job with archiveName := input },
                state := .idle },
             .nameSet input)
  else if session.state = .processing then
    .ok (session, .alreadyProcessing)
  else
    let lines := ((text.splitOn "\n").map (fun l => l.trim)).filter
      (fun l => strStarts l "http")
    if lines.isEmpty then .ok (session, .noValidUrls)
    else
      let defaultName := defaultNameOf lines
      .ok ({ session with
              pendingJob := some ⟨lines, defaultName⟩,
              state := .idle },
           .namePrompt defaultName)

/-- The `bot.command('cancel', ...)` handler. -/
def cancelCommand (session : Session) : Session × Reply :=
  if session.state = .processing then (session, .jobRunning)
  else ({ session with state := .idle, pendingJob := none }, .cancelledReady)

/-- The `bot.action('cancel_download', ...)` handler:
`if (session.abortController) session.abortController.abort();`. -/
def cancelDownloadAction (session : Session) : Session :=
  match session.abortFlag with
  | some _ => { session with abortFlag := some true }
  | none => session

/-- A `galleries` entry pushed by `processGalleries`. -/
structure GalleryEntry where
  name : String
  urls : List String
  useProxy : Bool
deriving Repr, DecidableEq

/-- The network-dependent results one URL of a `processGalleries` run can
observe: `direct` is `await JsdomScraper.extractImages(url, strategy)` under
the registry-resolved rule (`.error` a throw), `discovery` is
`await strategyEngine.findWorkingStrategy(url, JsdomScraper, 5)`. -/
structure UrlStepEnv where
  direct : Except String (List String)
  discovery : Option (Strategy × List String)

structure UrlStepResult where
  discoveryInvoked : Bool
  gallery : GalleryEntry
  unsupported : Bool
deriving Repr, DecidableEq

/-- The body of the per-URL loop of `TelegramBot.processGalleries`
(src/bot.js lines 550-604): resolve a rule with `getStrategy`; if a rule
exists, run extraction under it; run Discovery exactly when
`!strategy || imageUrls.length === 0`; a thrown extraction lands in the
catch block, which records the URL as unsupported and pushes an empty
gallery. `unsupported` = the URL was pushed onto `unsupportedUrls`. -/
def processUrlStep (strategies : Registry) (hostname galleryName : String)
    (env : UrlStepEnv) : UrlStepResult :=
  match getStrategy strategies hostname with
  | some strat =>
    match env.direct with
    | .error _ => ⟨false, ⟨galleryName, [], false⟩, true⟩
    | .ok imageUrls =>
      if imageUrls.length = 0 then
        match env.discovery with
        | some (found, images) => ⟨true, ⟨galleryName, images, found.useProxy⟩, false⟩
        | none => ⟨true, ⟨galleryName, [], false⟩, true⟩
      else ⟨false, ⟨galleryName, imageUrls, strat.useProxy⟩, false⟩
  | none =>
    match env.discovery with
    | some (found, images) => ⟨true, ⟨galleryName, images, found.useProxy⟩, false⟩
    | none => ⟨true, ⟨galleryName, [], false⟩, true⟩

/-! ## Concrete fixtures used by counterexamples and witnesses -/

def ruleA : Strategy := ⟨"SiteA", ⟨"a.fancybox", "href", ["thumb"]⟩, false⟩

def ruleB : Strategy := ⟨"SiteB", ⟨"img.gallery", "src", []⟩, false⟩

/-- Every dispatched download succeeds. -/
def okAllItems : Nat → Nat → Bool := fun _ _ => true

/-- Output path oracle for engine runs. -/
def pathOracle : Nat → Nat → String := fun _ _ => "file"

/-- One gallery of two image URLs. -/
def galTwo : GalleryInput := ⟨"g", ["http://a/1.jpg", "http://a/2.jpg"]⟩

/-- A cancellation schedule that flips at tick 2 and stays flipped. -/
def sigAfterTwo : Nat → Bool := fun t => decide (2 ≤ t)

def envPreAborted : DownloadEnv := ⟨fun _ => true, fun _ => false, fun _ => .netFail⟩

def envCanceledFlight : DownloadEnv := ⟨fun _ => false, fun _ => false, fun _ => .canceled⟩

def envAllFail : DownloadEnv := ⟨fun _ => false, fun _ => false, fun _ => .netFail⟩

def envSecondOk : DownloadEnv :=
  ⟨fun _ => false, fun _ => false, fun k => if k = 1 then .netFail else .ok⟩

def envFailThenAborted : DownloadEnv := ⟨fun _ => false, fun _ => true, fun _ => .netFail⟩

def jobFixture : PendingJob := ⟨["http://example.com/gal"], "gal_1"⟩

def sessionProcessing : Session := ⟨.processing, some jobFixture, some false⟩

def sessionIdle : Session := ⟨.idle, some jobFixture, none⟩

/-- A URL-constructor oracle whose base-resolved outputs are WHATWG-style
hrefs: nonempty, scheme-first (never protocol-relative), and fixed under
re-parsing. -/
def parseFixture : String → String → Option String :=
  fun u _ => if u = "rel/img.jpg" ∨ u = "data:x" then some "data:x" else none

/-- Registry-resolved extraction for C1 that yields three images: a low but
non-zero yield. -/
def envLowYield : UrlStepEnv :=
  ⟨.ok ["http://a/1.jpg", "http://a/2.jpg", "http://a/3.jpg"], none⟩

/-- Per-rule extraction oracle for the C7 witness: the first registry rule
throws, the second yields five images. -/
def extractFixture : Strategy → Except String (List String) :=
  fun s =>
    if s.name = "SiteA" then .error "fetch failed"
    else .ok ["u1", "u2", "u3", "u4", "u5"]

def registryFixture : Registry := [("a.com", ruleA), ("b.com", ruleB)]

/-- A URL-constructor oracle under which every base resolution fails. -/
def noParse : String → String → Option String := fun _ _ => none

/-- Raw attribute values for the C5 witness: one thumbnail, one duplicate,
one null. -/
def c5RawAttrs : List (Option String) :=
  [some "http://a/1.jpg", some "http://a/thumb1.jpg", some "http://a/1.jpg", none]

/-! # Theorems -/

/-! ## Helper lemmas about association-list lookup (JS object indexing) -/

theorem lookup_mem {l : Registry} {k : String} {r : Strategy}
    (h : List.lookup k l = some r) : (k, r) ∈ l := by
  induction l with
  | nil => simp [List.lookup] at h
  | cons e es ih =>
    obtain ⟨k0, r0⟩ := e
    by_cases hk : k = k0
    · subst hk
      simp [List.lookup] at h
      simp [h]
    · have hbeq : (k == k0) = false := beq_eq_false_iff_ne.mpr hk
      simp [List.lookup, hbeq] at h
      exact List.mem_cons_of_mem _ (ih h)

theorem lookup_eq_none_iff {l : Registry} {k : String} :
    List.lookup k l = none ↔ ∀ r, (k, r) ∉ l := by
  induction l with
  | nil => simp [List.lookup]
  | cons e es ih =>
    obtain ⟨k0, r0⟩ := e
    by_cases hk : k = k0
    · subst hk
      constructor
      · intro h
        simp [List.lookup] at h
      · intro h
        exact absurd (List.mem_cons_self _ _) (h r0)
    · have hbeq : (k == k0) = false := beq_eq_false_iff_ne.mpr hk
      constructor
      · intro h r hmem
        rcases List.mem_cons.1 hmem with h0 | h1
        · exact hk (congrArg Prod.fst h0)
        · exact ih.1 (by simpa [List.lookup, hbeq] using h) r h1
      · intro h
        simp only [List.lookup, hbeq]
        exact ih.2 (fun r hr => h r (List.mem_cons_of_mem _ hr))

/-! ## Claim C6 -/

/-- Claim C6 counterexample: the code does not strip only a LEADING `www.`:
`hostname.replace('www.', '')` removes the first occurrence of `www.`
anywhere. On the hostname `img.www.example.com` (no leading `www.`), the
claimed resolution finds the registry rule keyed `img.www.example.com`,
but the code looks up `img.example.com` and returns null. -/
theorem c6_counterexample :
    getStrategy [("img.www.example.com", ruleA)] "img.www.example.com" = none ∧
    getStrategySpecLeading [("img.www.example.com", ruleA)] "img.www.example.com"
      = some ruleA := by
  exact ⟨by rfl, by rfl⟩

/-- Claim C6 (amended): Registry resolution takes the hostname, removes the
FIRST occurrence of the substring `www.` (in particular a leading one), and
looks up that key exactly: if the key matches a rule it returns that exact
rule, otherwise it returns null; it never throws for a well-formed URL (the
embedding is a total function of the parsed hostname). -/
theorem c6_resolution (strategies : Registry) (hostname : String) :
    getStrategy strategies hostname = getStrategySpecAmended strategies hostname ∧
    (∀ r, getStrategy strategies hostname = some r →
      (extractDomain hostname, r) ∈ strategies) ∧
    (getStrategy strategies hostname = none ↔
      ∀ r, (extractDomain hostname, r) ∉ strategies) := by
  refine ⟨rfl, ?_, ?_⟩
  · intro r h
    exact lookup_mem h
  · exact lookup_eq_none_iff

/-- Witness for C6 (amended) at a concrete registry and hostname. -/
theorem c6_resolution_witness :
    getStrategy [("example.com", ruleA)] "www.example.com" = some ruleA ∧
    (extractDomain "www.example.com", ruleA) ∈ [("example.com", ruleA)] := by
  have h := c6_resolution [("example.com", ruleA)] "www.example.com"
  exact ⟨by rfl, h.2.1 ruleA (by rfl)⟩

/-! ## Claim C7 -/

/-- Claim C7: Strategy Discovery iterates the registry in order and returns
the first rule whose extraction yields at least `minImages` images together
with those images; a rule whose extraction throws or yields fewer images is
passed over (errors are swallowed, the loop continues), and exhausting the
registry returns null exactly when no rule works. -/
theorem c7_findWorkingStrategy (extract : Strategy → Except String (List String))
    (strategies : Registry) (minImages : Nat) :
    (∀ s imgs, findWorkingStrategy extract strategies minImages = some (s, imgs) →
      extract s = .ok imgs ∧ minImages ≤ imgs.length ∧
      ∃ l1 d l2, strategies = l1 ++ (d, s) :: l2 ∧
        ∀ e ∈ l1, strategyWorks extract minImages e.2 = false) ∧
    (findWorkingStrategy extract strategies minImages = none ↔
      ∀ e ∈ strategies, strategyWorks extract minImages e.2 = false) := by
  induction strategies with
  | nil =>
    constructor
    · intro s imgs h
      simp [findWorkingStrategy] at h
    · simp [findWorkingStrategy]
  | cons e es ih =>
    obtain ⟨d0, s0⟩ := e
    have hworks : strategyWorks extract minImages s0 =
        match extract s0 with
        | .ok images => decide (minImages ≤ images.length)
        | .error _ => false := rfl
    constructor
    · intro s imgs h
      cases hx : extract s0 with
      | ok imgs0 =>
        by_cases hlen : minImages ≤ imgs0.length
        · simp [findWorkingStrategy, hx, hlen] at h
          obtain ⟨rfl, rfl⟩ := h
          exact ⟨hx, hlen, [], d0, es, rfl, by simp⟩
        · simp [findWorkingStrategy, hx, hlen] at h
          obtain ⟨h1, h2, l1, d, l2, hdec, hall⟩ := ih.1 s imgs h
          refine ⟨h1, h2, (d0, s0) :: l1, d, l2, by rw [hdec]; rfl, ?_⟩
          intro e he
          rcases List.mem_cons.1 he with he0 | he1
          · rw [he0, hworks, hx]
            simp [hlen]
          · exact hall e he1
      | error msg =>
        simp [findWorkingStrategy, hx] at h
        obtain ⟨h1, h2, l1, d, l2, hdec, hall⟩ := ih.1 s imgs h
        refine ⟨h1, h2, (d0, s0) :: l1, d, l2, by rw [hdec]; rfl, ?_⟩
        intro e he
        rcases List.mem_cons.1 he with he0 | he1
        · rw [he0, hworks, hx]
        · exact hall e he1
    · cases hx : extract s0 with
      | ok imgs0 =>
        by_cases hlen : minImages ≤ imgs0.length
        · simp [findWorkingStrategy, hx, hlen, hworks]
        · simp [findWorkingStrategy, hx, hlen, hworks, ih.2]
      | error msg =>
        simp [findWorkingStrategy, hx, hworks, ih.2]

/-! ## Claim C10 -/

theorem startsWithL_nil (l : List Char) : startsWithL l [] = true := by
  cases l <;> rfl

theorem startsWithL_cons_inv {l : List Char} {b : Char} {p : List Char}
    (h : startsWithL l (b :: p) = true) :
    ∃ t, l = b :: t ∧ startsWithL t p = true := by
  cases l with
  | nil => simp [startsWithL] at h
  | cons a t =>
    simp [startsWithL] at h
    exact ⟨t, by rw [h.1], h.2⟩

/-- Claim C10: resolveUrl is idempotent. The URL constructor `parse` is the
platform; the hypotheses record the WHATWG guarantees the code relies on for
`new URL(raw, base).href`: an href is nonempty, begins with its scheme (so
never with `//`), and serializing and re-parsing an href against any base
returns the same href. -/
theorem c10_resolveUrl_idempotent (parse : String → String → Option String)
    (hne : ∀ u p r, parse u p = some r → r ≠ "")
    (hnp : ∀ u p r, parse u p = some r → strStarts r "//" = false)
    (hfix : ∀ u p r, parse u p = some r → parse r p = some r)
    (u p r : String) (h : resolveUrl parse u p = some r) :
    resolveUrl parse r p = some r := by
  unfold resolveUrl at h
  by_cases h0 : u = ""
  · simp [h0] at h
  rw [if_neg h0] at h
  by_cases h1 : strStarts u "//" = true
  · rw [if_pos (by exact h1)] at h
    have hr : r = "https:" ++ u := (Option.some.inj h).symm
    have h1l : startsWithL u.data ['/', '/'] = true := h1
    obtain ⟨t1, ht1, h1b⟩ := startsWithL_cons_inv h1l
    obtain ⟨t2, ht2, _⟩ := startsWithL_cons_inv h1b
    have hdata : r.data = 'h' :: 't' :: 't' :: 'p' :: 's' :: ':' :: '/' :: '/' :: t2 := by
      rw [hr]
      show ("https:".data ++ u.data) = _
      rw [ht1, ht2]
      rfl
    have hA : ¬r = "" := by
      intro h0'
      rw [h0'] at hdata
      exact absurd hdata (by simp)
    have hB : strStarts r "//" = false := by
      unfold strStarts
      rw [hdata]
      rfl
    have hC : strStarts r "https://" = true := by
      unfold strStarts
      rw [hdata]
      exact startsWithL_nil t2
    unfold resolveUrl
    rw [if_neg hA, if_neg (by rw [hB]; exact Bool.false_ne_true),
        if_pos (by rw [hC, Bool.or_true])]
  · rw [if_neg h1] at h
    by_cases h2 : (strStarts u "http://" || strStarts u "https://") = true
    · rw [if_pos (by exact h2)] at h
      have hr : r = u := (Option.some.inj h).symm
      have hu : ∃ t, u.data = 'h' :: t := by
        rcases Bool.or_eq_true_iff.1 h2 with hcase | hcase
        · obtain ⟨t, ht, _⟩ := startsWithL_cons_inv (l := u.data) (b := 'h') hcase
          exact ⟨t, ht⟩
        · obtain ⟨t, ht, _⟩ := startsWithL_cons_inv (l := u.data) (b := 'h') hcase
          exact ⟨t, ht⟩
      obtain ⟨t, ht⟩ := hu
      have hA : ¬r = "" := by
        intro h0'
        rw [hr] at h0'
        rw [h0'] at ht
        exact absurd ht (by simp)
      have hB : strStarts r "//" = false := by
        unfold strStarts
        rw [hr, ht]
        rfl
      unfold resolveUrl
      rw [if_neg hA, if_neg (by rw [hB]; exact Bool.false_ne_true),
          if_pos (by rw [hr]; exact h2)]
    · rw [if_neg h2] at h
      have hA : ¬r = "" := hne u p r h
      have hB : strStarts r "//" = false := hnp u p r h
      unfold resolveUrl
      rw [if_neg hA, if_neg (by rw [hB]; exact Bool.false_ne_true)]
      by_cases h3 : (strStarts r "http://" || strStarts r "https://") = true
      · rw [if_pos h3]
      · rw [if_neg h3]
        exact hfix u p r h

theorem parseFixture_ne : ∀ u p r, parseFixture u p = some r → r ≠ "" := by
  intro u p r h
  unfold parseFixture at h
  by_cases hc : u = "rel/img.jpg" ∨ u = "data:x"
  · rw [if_pos hc] at h
    rw [← Option.some.inj h]
    decide
  · rw [if_neg hc] at h
    exact absurd h (by simp)

theorem parseFixture_nostart : ∀ u p r, parseFixture u p = some r →
    strStarts r "//" = false := by
  intro u p r h
  unfold parseFixture at h
  by_cases hc : u = "rel/img.jpg" ∨ u = "data:x"
  · rw [if_pos hc] at h
    rw [← Option.some.inj h]
    decide
  · rw [if_neg hc] at h
    exact absurd h (by simp)

theorem parseFixture_fix : ∀ u p r, parseFixture u p = some r →
    parseFixture r p = some r := by
  intro u p r h
  unfold parseFixture at h
  by_cases hc : u = "rel/img.jpg" ∨ u = "data:x"
  · rw [if_pos hc] at h
    rw [← Option.some.inj h]
    rfl
  · rw [if_neg hc] at h
    exact absurd h (by simp)

/-- Witness for C10: a relative raw value resolves through the base branch
to the fixed output, and resolving that output again returns it unchanged. -/
theorem c10_resolveUrl_idempotent_witness :
    resolveUrl parseFixture "rel/img.jpg" "http://page/" = some "data:x" ∧
    resolveUrl parseFixture "data:x" "http://page/" = some "data:x" := by
  refine ⟨by rfl, ?_⟩
  exact c10_resolveUrl_idempotent parseFixture parseFixture_ne parseFixture_nostart
    parseFixture_fix "rel/img.jpg" "http://page/" "data:x" (by rfl)

/-! ## Claim C1 -/

/-- Claim C1 counterexample: a URL whose registry rule resolves and whose
extraction yields 3 images (non-zero but below minImages = 5) does NOT
invoke Strategy Discovery: the fallback condition in processGalleries is
`!strategy || imageUrls.length === 0`, not a comparison with minImages. -/
theorem c1_counterexample :
    getStrategy [("example.com", ruleA)] "example.com" = some ruleA ∧
    envLowYield.direct = .ok ["http://a/1.jpg", "http://a/2.jpg", "http://a/3.jpg"] ∧
    (["http://a/1.jpg", "http://a/2.jpg", "http://a/3.jpg"] : List String).length < 5 ∧
    (processUrlStep [("example.com", ruleA)] "example.com" "gal"
      envLowYield).discoveryInvoked = false := by
  exact ⟨by rfl, rfl, by decide, by rfl⟩

/-- Claim C1 (amended): for a processed URL, Strategy Discovery is invoked
exactly when Registry resolution yields no rule, or the resolved rule's
extraction returns normally with zero images. A low but non-zero yield
(below minImages) does not trigger Discovery, and neither does a thrown
extraction (the URL is recorded as unsupported instead). -/
theorem c1_discovery_trigger (strategies : Registry)
    (hostname galleryName : String) (env : UrlStepEnv) :
    (processUrlStep strategies hostname galleryName env).discoveryInvoked = true ↔
      (getStrategy strategies hostname = none ∨
        (∃ s, getStrategy strategies hostname = some s ∧
          env.direct = .ok ([] : List String))) := by
  cases hs : getStrategy strategies hostname with
  | none =>
    cases hd : env.discovery with
    | none => simp [processUrlStep, hs, hd]
    | some pr =>
      obtain ⟨f, imgs⟩ := pr
      simp [processUrlStep, hs, hd]
  | some strat =>
    cases hd : env.direct with
    | error msg => simp [processUrlStep, hs, hd]
    | ok imgs =>
      by_cases hlen : imgs.length = 0
      · have himgs : imgs = [] := List.length_eq_zero.mp hlen
        subst himgs
        cases hd2 : env.discovery with
        | none => simp [processUrlStep, hs, hd, hd2]
        | some pr =>
          obtain ⟨f, imgs2⟩ := pr
          simp [processUrlStep, hs, hd, hd2]
      · have himgs : imgs ≠ [] := fun he => hlen (he ▸ rfl)
        simp [processUrlStep, hs, hd, hlen, himgs]

/-! ## Claim C5 -/

theorem mem_setDedupAux {u : String} (l : List String) :
    ∀ seen, u ∈ setDedupAux seen l ↔ (u ∈ l ∧ u ∉ seen) := by
  induction l with
  | nil => intro seen; simp [setDedupAux]
  | cons x xs ih =>
    intro seen
    by_cases hx : x ∈ seen
    · rw [setDedupAux, if_pos hx, ih seen]
      constructor
      · exact fun h => ⟨List.mem_cons_of_mem _ h.1, h.2⟩
      · rintro ⟨h1, h2⟩
        rcases List.mem_cons.1 h1 with rfl | h1'
        · exact absurd hx h2
        · exact ⟨h1', h2⟩
    · rw [setDedupAux, if_neg hx]
      constructor
      · intro hm
        rcases List.mem_cons.1 hm with rfl | hm'
        · exact ⟨List.mem_cons_self _ _, hx⟩
        · obtain ⟨h1, h2⟩ := (ih (x :: seen)).1 hm'
          exact ⟨List.mem_cons_of_mem _ h1,
            fun hseen => h2 (List.mem_cons_of_mem _ hseen)⟩
      · rintro ⟨h1, h2⟩
        rcases List.mem_cons.1 h1 with rfl | h1'
        · exact List.mem_cons_self _ _
        · by_cases hux : u = x
          · subst hux
            exact List.mem_cons_self _ _
          · refine List.mem_cons_of_mem _ ((ih (x :: seen)).2 ⟨h1', ?_⟩)
            intro hm
            rcases List.mem_cons.1 hm with h | h
            · exact hux h
            · exact h2 h

theorem nodup_setDedupAux (l : List String) :
    ∀ seen, (setDedupAux seen l).Nodup := by
  induction l with
  | nil => intro seen; simp [setDedupAux]
  | cons x xs ih =>
    intro seen
    by_cases hx : x ∈ seen
    · rw [setDedupAux, if_pos hx]
      exact ih seen
    · rw [setDedupAux, if_neg hx]
      refine List.nodup_cons.2 ⟨?_, ih (x :: seen)⟩
      intro hm
      exact ((mem_setDedupAux xs (x :: seen)).1 hm).2 (List.mem_cons_self _ _)

theorem firstIdx_cons_self (x : String) (xs : List String) :
    firstIdx (x :: xs) x = 0 := by
  simp [firstIdx]

theorem firstIdx_cons_ne {x u : String} (xs : List String) (h : u ≠ x) :
    firstIdx (x :: xs) u = firstIdx xs u + 1 := by
  rw [firstIdx, if_neg (fun he => h he.symm)]

theorem pairwise_firstIdx_setDedupAux (l : List String) :
    ∀ seen, (setDedupAux seen l).Pairwise
      (fun a b => firstIdx l a < firstIdx l b) := by
  induction l with
  | nil => intro seen; simp [setDedupAux]
  | cons x xs ih =>
    intro seen
    by_cases hx : x ∈ seen
    · rw [setDedupAux, if_pos hx]
      refine List.Pairwise.imp_of_mem ?_ (ih seen)
      intro a b ha hb hab
      have ha' := (mem_setDedupAux xs seen).1 ha
      have hb' := (mem_setDedupAux xs seen).1 hb
      have hax : a ≠ x := fun he => ha'.2 (he ▸ hx)
      have hbx : b ≠ x := fun he => hb'.2 (he ▸ hx)
      rw [firstIdx_cons_ne xs hax, firstIdx_cons_ne xs hbx]
      omega
    · rw [setDedupAux, if_neg hx]
      refine List.Pairwise.cons ?_ ?_
      · intro b hb
        have hb' := (mem_setDedupAux xs (x :: seen)).1 hb
        have hbx : b ≠ x := fun he => hb'.2 (he ▸ List.mem_cons_self _ _)
        rw [firstIdx_cons_self, firstIdx_cons_ne xs hbx]
        omega
      · refine List.Pairwise.imp_of_mem ?_ (ih (x :: seen))
        intro a b ha hb hab
        have ha' := (mem_setDedupAux xs (x :: seen)).1 ha
        have hb' := (mem_setDedupAux xs (x :: seen)).1 hb
        have hax : a ≠ x := fun he => ha'.2 (he ▸ List.mem_cons_self _ _)
        have hbx : b ≠ x := fun he => hb'.2 (he ▸ List.mem_cons_self _ _)
        rw [firstIdx_cons_ne xs hax, firstIdx_cons_ne xs hbx]
        omega

theorem mem_filterImages {u : String} {urls filterPatterns : List String}
    (h : u ∈ filterImages urls filterPatterns) :
    ∀ pat ∈ filterPatterns, strIncludes u pat = false := by
  intro pat hpat
  unfold filterImages at h
  by_cases he : filterPatterns.isEmpty
  · rw [List.isEmpty_iff] at he
    subst he
    simp at hpat
  · rw [if_neg he] at h
    have hp := List.of_mem_filter h
    simp only [Bool.not_eq_true'] at hp
    have := (List.any_eq_false).1 hp pat hpat
    simpa using this

/-- Claim C5: every sequence returned by the Gallery Extractor has no
duplicate URLs, contains no URL that has one of the rule's filter patterns
as a substring, and deduplication keeps exactly the first occurrence of each
filtered URL in discovery order: membership coincides with the filtered
stream, and the output is strictly sorted by position of first occurrence in
the filtered stream. -/
theorem c5_extractImages (parse : String → String → Option String)
    (rawAttrs : List (Option String)) (url : String) (strategy : Strategy) :
    (extractImages parse rawAttrs url strategy).Nodup ∧
    (∀ u ∈ extractImages parse rawAttrs url strategy,
      ∀ pat ∈ strategy.images.filterPatterns, strIncludes u pat = false) ∧
    (∀ u, u ∈ extractImages parse rawAttrs url strategy ↔
      u ∈ filterImages (resolvedUrls parse rawAttrs url)
        strategy.images.filterPatterns) ∧
    (extractImages parse rawAttrs url strategy).Pairwise
      (fun a b =>
        firstIdx (filterImages (resolvedUrls parse rawAttrs url)
          strategy.images.filterPatterns) a <
        firstIdx (filterImages (resolvedUrls parse rawAttrs url)
          strategy.images.filterPatterns) b) := by
  refine ⟨nodup_setDedupAux _ [], ?_, ?_, pairwise_firstIdx_setDedupAux _ []⟩
  · intro u hu pat hpat
    have hmem := (mem_setDedupAux _ []).1 hu
    exact mem_filterImages hmem.1 pat hpat
  · intro u
    rw [show extractImages parse rawAttrs url strategy =
      setDedupAux [] (filterImages (resolvedUrls parse rawAttrs url)
        strategy.images.filterPatterns) from rfl]
    rw [mem_setDedupAux _ []]
    simp

/-- Witness for C5 on a concrete page: three resolved URLs with one
thumbnail and one duplicate; the output keeps the single clean URL. -/
theorem c5_extractImages_witness :
    (extractImages noParse c5RawAttrs "http://a/" ruleA).Nodup ∧
    strIncludes "http://a/1.jpg" "thumb" = false ∧
    "http://a/1.jpg" ∈ extractImages noParse c5RawAttrs "http://a/" ruleA := by
  refine ⟨(c5_extractImages noParse c5RawAttrs "http://a/" ruleA).1,
    (c5_extractImages noParse c5RawAttrs "http://a/" ruleA).2.1
      "http://a/1.jpg" (by decide) "thumb" (by decide),
    ((c5_extractImages noParse c5RawAttrs "http://a/" ruleA).2.2.1
      "http://a/1.jpg").2 (by decide)⟩

/-! ## Claims C2 and C3: the download engine -/

theorem length_filter_add {α : Type} (p : α → Bool) (l : List α) :
    (l.filter p).length + (l.filter (fun a => !p a)).length = l.length := by
  induction l with
  | nil => rfl
  | cons x xs ih =>
    by_cases hx : p x <;> simp [List.filter_cons, hx] <;> omega

theorem length_enumFrom (l : List String) : ∀ i, (enumFrom i l).length = l.length := by
  induction l with
  | nil => intro i; rfl
  | cons x xs ih => intro i; simp [enumFrom, ih]

theorem sum_chunksF_length {α : Type} {conc : Nat} (hconc : 1 ≤ conc) :
    ∀ (fuel : Nat) (items : List α), items.length ≤ fuel →
      ((chunksF conc fuel items).map List.length).sum = items.length := by
  intro fuel
  induction fuel with
  | zero =>
    intro items h
    cases items with
    | nil => rfl
    | cons x xs => simp at h
  | succ fuel ih =>
    intro items h
    cases items with
    | nil => rfl
    | cons x xs =>
      have hc0 : conc ≠ 0 := by omega
      rw [chunksF, if_neg hc0]
      have hlen : ((x :: xs).drop conc).length ≤ fuel := by
        rw [List.length_drop]
        simp only [List.length_cons] at h ⊢
        omega
      simp only [List.map_cons, List.sum_cons, ih _ hlen,
        List.length_take, List.length_drop]
      simp only [List.length_cons]
      omega

theorem dlWindows_spec (sig : Nat → Bool) (ok : Nat → Bool) (genPath : Nat → String) :
    ∀ (ws : List (List (Nat × String))) (t : Nat),
      (∀ w ∈ (dlWindows sig ok genPath ws t).windowStarts, sig w.1 = false) ∧
      ((dlWindows sig ok genPath ws t).success + (dlWindows sig ok genPath ws t).failed =
        ((dlWindows sig ok genPath ws t).windowStarts.map Prod.snd).sum) := by
  intro ws
  induction ws with
  | nil => intro t; exact ⟨by simp [dlWindows], by simp [dlWindows]⟩
  | cons w ws ih =>
    intro t
    cases hsig : sig t with
    | true => exact ⟨by simp [dlWindows, hsig], by simp [dlWindows, hsig]⟩
    | false =>
      constructor
      · intro p hp
        simp only [dlWindows, hsig, Bool.false_eq_true, if_false] at hp
        rcases List.mem_cons.1 hp with rfl | hp'
        · exact hsig
        · exact (ih (t + 1)).1 p hp'
      · simp only [dlWindows, hsig, Bool.false_eq_true, if_false,
          List.map_cons, List.sum_cons]
        have hpart := length_filter_add (fun item : Nat × String => ok item.1) w
        have := (ih (t + 1)).2
        omega

theorem dlWindows_nocancel (ok : Nat → Bool) (genPath : Nat → String) :
    ∀ (ws : List (List (Nat × String))) (t : Nat),
      (dlWindows (fun _ => false) ok genPath ws t).success +
        (dlWindows (fun _ => false) ok genPath ws t).failed =
        (ws.map List.length).sum := by
  intro ws
  induction ws with
  | nil => intro t; rfl
  | cons w ws ih =>
    intro t
    simp only [dlWindows, Bool.false_eq_true, if_false, List.map_cons, List.sum_cons]
    have hpart := length_filter_add (fun item : Nat × String => ok item.1) w
    have := ih (t + 1)
    omega

theorem downloadImages_nocancel (ok : Nat → Bool) (genPath : Nat → String)
    (urls : List String) (conc t0 : Nat) (hconc : 1 ≤ conc) :
    (downloadImages (fun _ => false) ok genPath urls conc t0).success +
      (downloadImages (fun _ => false) ok genPath urls conc t0).failed =
      urls.length ∧
    (downloadImages (fun _ => false) ok genPath urls conc t0).total = urls.length := by
  constructor
  · show (dlWindows (fun _ => false) ok genPath (chunks conc (enumFrom 1 urls)) t0).success +
      (dlWindows (fun _ => false) ok genPath (chunks conc (enumFrom 1 urls)) t0).failed = _
    rw [dlWindows_nocancel ok genPath (chunks conc (enumFrom 1 urls)) t0]
    rw [show chunks conc (enumFrom 1 urls) =
      chunksF conc (enumFrom 1 urls).length (enumFrom 1 urls) from rfl]
    rw [sum_chunksF_length hconc (enumFrom 1 urls).length (enumFrom 1 urls) le_rfl]
    exact length_enumFrom urls 1
  · rfl

theorem dmgGo_nocancel (ok : Nat → Nat → Bool) (genPath : Nat → Nat → String)
    (conc : Nat) (hconc : 1 ≤ conc) :
    ∀ (gs : List GalleryInput) (gi t : Nat),
      (dmgGo (fun _ => false) ok genPath conc gs gi t).successImages +
        (dmgGo (fun _ => false) ok genPath conc gs gi t).failedImages =
        (dmgGo (fun _ => false) ok genPath conc gs gi t).totalImages ∧
      (dmgGo (fun _ => false) ok genPath conc gs gi t).totalImages =
        (gs.map (fun g => g.urls.length)).sum ∧
      (dmgGo (fun _ => false) ok genPath conc gs gi t).cancelled = false := by
  intro gs
  induction gs with
  | nil => intro gi t; exact ⟨rfl, rfl, rfl⟩
  | cons g gs ih =>
    intro gi t
    have hgal := downloadImages_nocancel (ok gi) (genPath gi) g.urls conc (t + 1) hconc
    have hrest := ih (gi + 1)
      (downloadImages (fun _ => false) (ok gi) (genPath gi) g.urls conc (t + 1)).endT
    refine ⟨?_, ?_, ?_⟩
    · simp only [dmgGo, Bool.false_eq_true, if_false]
      have h1 := hrest.1
      have h2 := hgal.1
      omega
    · simp only [dmgGo, Bool.false_eq_true, if_false, List.map_cons, List.sum_cons]
      have h1 := hrest.2.1
      have h2 := hgal.2
      omega
    · simp only [dmgGo, Bool.false_eq_true, if_false]
      exact hrest.2.2

theorem dmgGo_starts (sig : Nat → Bool) (ok : Nat → Nat → Bool)
    (genPath : Nat → Nat → String) (conc : Nat) :
    ∀ (gs : List GalleryInput) (gi t : Nat),
      (∀ ts ∈ (dmgGo sig ok genPath conc gs gi t).galleryStarts, sig ts = false) ∧
      (∀ w ∈ (dmgGo sig ok genPath conc gs gi t).windowStarts, sig w.1 = false) ∧
      ((dmgGo sig ok genPath conc gs gi t).successImages +
        (dmgGo sig ok genPath conc gs gi t).failedImages =
        ((dmgGo sig ok genPath conc gs gi t).windowStarts.map Prod.snd).sum) := by
  intro gs
  induction gs with
  | nil =>
    intro gi t
    exact ⟨by simp [dmgGo], by simp [dmgGo], by simp [dmgGo]⟩
  | cons g gs ih =>
    intro gi t
    cases hsig : sig t with
    | true =>
      refine ⟨?_, ?_, ?_⟩ <;> simp [dmgGo, hsig]
    | false =>
      have hwin := dlWindows_spec sig (ok gi) (genPath gi)
        (chunks conc (enumFrom 1 g.urls)) (t + 1)
      cases hpost : sig (downloadImages sig (ok gi) (genPath gi) g.urls conc (t + 1)).endT with
      | true =>
        refine ⟨?_, ?_, ?_⟩
        · intro ts hts
          simp only [dmgGo, hsig, Bool.false_eq_true, if_false, hpost, if_true] at hts
          rcases List.mem_cons.1 hts with rfl | hts'
          · exact hsig
          · simp at hts'
        · intro w hw
          simp only [dmgGo, hsig, Bool.false_eq_true, if_false, hpost, if_true] at hw
          exact hwin.1 w hw
        · simp only [dmgGo, hsig, Bool.false_eq_true, if_false, hpost, if_true]
          exact hwin.2
      | false =>
        have hrest := ih (gi + 1)
          (downloadImages sig (ok gi) (genPath gi) g.urls conc (t + 1)).endT
        refine ⟨?_, ?_, ?_⟩
        · intro ts hts
          simp only [dmgGo, hsig, Bool.false_eq_true, if_false, hpost] at hts
          rcases List.mem_cons.1 hts with rfl | hts'
          · exact hsig
          · exact hrest.1 ts hts'
        · intro w hw
          simp only [dmgGo, hsig, Bool.false_eq_true, if_false, hpost,
            List.mem_append] at hw
          rcases hw with hw' | hw'
          · exact hwin.1 w hw'
          · exact hrest.2.1 w hw'
        · simp only [dmgGo, hsig, Bool.false_eq_true, if_false, hpost,
            List.map_append, List.sum_append]
          have h1 := hrest.2.2
          have h2 : (downloadImages sig (ok gi) (genPath gi) g.urls conc (t + 1)).success +
              (downloadImages sig (ok gi) (genPath gi) g.urls conc (t + 1)).failed =
              ((downloadImages sig (ok gi) (genPath gi) g.urls conc
                (t + 1)).windowStarts.map Prod.snd).sum := hwin.2
          omega

theorem dmgGo_cancelled (sig : Nat → Bool) (ok : Nat → Nat → Bool)
    (genPath : Nat → Nat → String) (conc : Nat) :
    ∀ (gs : List GalleryInput) (gi t : Nat), sig t = false →
      (dmgGo sig ok genPath conc gs gi t).cancelled =
        sig (dmgGo sig ok genPath conc gs gi t).endT := by
  intro gs
  induction gs with
  | nil =>
    intro gi t ht
    simp [dmgGo, ht]
  | cons g gs ih =>
    intro gi t ht
    cases hpost : sig (downloadImages sig (ok gi) (genPath gi) g.urls conc (t + 1)).endT with
    | true => simp [dmgGo, ht, hpost]
    | false =>
      simp only [dmgGo, ht, Bool.false_eq_true, if_false, hpost]
      exact ih (gi + 1) _ hpost

/-- Claim C2 counterexample: a cancelled run breaks the aggregate equation.
One gallery of two URLs at concurrency 1, with the token flipping at tick 2
(after the first window settles): the run is marked cancelled, the skipped
second window is neither a success nor a failure, yet `total` was fixed to
the full URL count up front, so successImages + failedImages = 1 while
totalImages = 2. -/
theorem c2_counterexample :
    (downloadMultipleGalleries sigAfterTwo okAllItems pathOracle [galTwo] 1 0).cancelled
      = true ∧
    ¬((downloadMultipleGalleries sigAfterTwo okAllItems pathOracle [galTwo] 1 0).successImages +
      (downloadMultipleGalleries sigAfterTwo okAllItems pathOracle [galTwo] 1 0).failedImages =
      (downloadMultipleGalleries sigAfterTwo okAllItems pathOracle [galTwo] 1 0).totalImages) := by
  exact ⟨by rfl, by decide⟩

/-- Claim C2 (amended): for every run of the multi-gallery engine in which
the cancellation token is never flipped (and concurrency at least 1, as the
claim assumes), the aggregate satisfies successImages + failedImages =
totalImages, and totalImages equals the sum of the per-gallery image-URL
counts fed in; such a run reports cancelled = false. Under cancellation the
equation can fail, as the counterexample shows. -/
theorem c2_aggregate_nocancel (ok : Nat → Nat → Bool)
    (genPath : Nat → Nat → String) (galleries : List GalleryInput)
    (conc t0 : Nat) (hconc : 1 ≤ conc) :
    (downloadMultipleGalleries (fun _ => false) ok genPath galleries conc t0).successImages +
      (downloadMultipleGalleries (fun _ => false) ok genPath galleries conc t0).failedImages =
      (downloadMultipleGalleries (fun _ => false) ok genPath galleries conc t0).totalImages ∧
    (downloadMultipleGalleries (fun _ => false) ok genPath galleries conc t0).totalImages =
      (galleries.map (fun g => g.urls.length)).sum ∧
    (downloadMultipleGalleries (fun _ => false) ok genPath galleries conc t0).cancelled
      = false := by
  have h := dmgGo_nocancel ok genPath conc hconc galleries 0 t0
  exact ⟨h.1, h.2.1, h.2.2⟩

/-- Witness for C2 (amended) on a concrete uncancelled run. -/
theorem c2_aggregate_nocancel_witness :
    (downloadMultipleGalleries (fun _ => false) okAllItems pathOracle [galTwo] 1 0).successImages +
      (downloadMultipleGalleries (fun _ => false) okAllItems pathOracle [galTwo] 1 0).failedImages =
      (downloadMultipleGalleries (fun _ => false) okAllItems pathOracle [galTwo] 1 0).totalImages ∧
    (downloadMultipleGalleries (fun _ => false) okAllItems pathOracle [galTwo] 1 0).totalImages =
      ([galTwo].map (fun g => g.urls.length)).sum ∧
    (downloadMultipleGalleries (fun _ => false) okAllItems pathOracle [galTwo] 1 0).cancelled
      = false := by
  exact c2_aggregate_nocancel okAllItems pathOracle [galTwo] 1 0 (by decide)

/-- Claim C3 counterexample: with an empty gallery list and the token
already flipped before the run, the engine performs no checks and returns
an aggregate with cancelled = false, although the token was flipped. -/
theorem c3_counterexample :
    (downloadMultipleGalleries (fun _ => true) okAllItems pathOracle [] 1 0).cancelled
      = false := by
  rfl

/-- Claim C3 (amended): once the cancellation token is flipped, no new
download window and no new gallery is started — every dispatched gallery and
every dispatched window observed an unflipped token at its start — and every
already-issued attempt settles as a success or a failure (the success and
failure counts add up to exactly the items of the dispatched windows).
The aggregate is marked cancelled = true whenever the token is flipped by
the end of the run, provided the gallery list is nonempty: a run over an
empty gallery list returns cancelled = false even if the token was already
flipped, as the counterexample shows. -/
theorem c3_cancellation (sig : Nat → Bool) (ok : Nat → Nat → Bool)
    (genPath : Nat → Nat → String) (galleries : List GalleryInput)
    (conc t0 : Nat) (hne : galleries ≠ []) :
    (∀ ts ∈ (downloadMultipleGalleries sig ok genPath galleries conc t0).galleryStarts,
      sig ts = false) ∧
    (∀ w ∈ (downloadMultipleGalleries sig ok genPath galleries conc t0).windowStarts,
      sig w.1 = false) ∧
    ((downloadMultipleGalleries sig ok genPath galleries conc t0).successImages +
      (downloadMultipleGalleries sig ok genPath galleries conc t0).failedImages =
      ((downloadMultipleGalleries sig ok genPath galleries conc t0).windowStarts.map
        Prod.snd).sum) ∧
    ((downloadMultipleGalleries sig ok genPath galleries conc t0).cancelled =
      sig (downloadMultipleGalleries sig ok genPath galleries conc t0).endT) := by
  have hs := dmgGo_starts sig ok genPath conc galleries 0 t0
  refine ⟨hs.1, hs.2.1, hs.2.2, ?_⟩
  cases hsig : sig t0 with
  | false => exact dmgGo_cancelled sig ok genPath conc galleries 0 t0 hsig
  | true =>
    cases galleries with
    | nil => exact absurd rfl hne
    | cons g gs =>
      show (dmgGo sig ok genPath conc (g :: gs) 0 t0).cancelled =
        sig (dmgGo sig ok genPath conc (g :: gs) 0 t0).endT
      simp [dmgGo, hsig]

/-- Witness for C3 (amended) on a concrete cancelled run: one gallery of two
URLs at concurrency 1 with the token flipping at tick 2. -/
theorem c3_cancellation_witness :
    (downloadMultipleGalleries sigAfterTwo okAllItems pathOracle [galTwo] 1 0).cancelled =
      sigAfterTwo (downloadMultipleGalleries sigAfterTwo okAllItems pathOracle
        [galTwo] 1 0).endT ∧
    sigAfterTwo 1 = false := by
  refine ⟨(c3_cancellation sigAfterTwo okAllItems pathOracle [galTwo] 1 0
    (by simp)).2.2.2, ?_⟩
  exact (c3_cancellation sigAfterTwo okAllItems pathOracle [galTwo] 1 0
    (by simp)).2.1 (1, 1) (by decide)

/-! ## Claim C4 -/

/-- Claim C4: the per-image download settles to a boolean for every oracle
history (the embedding is a total function: the try/catch turns every thrown
error into a counted failure, so nothing propagates to the caller).
Cancellation observed before an attempt returns failure with no attempt
issued, no retry and no delay; an attempt aborted mid-flight (ERR_CANCELED,
or the signal seen aborted in the catch) returns failure immediately with no
retry and no delay; non-cancellation failures are retried up to 3 attempts
total with a delay of attempt-number x 1000 ms after each failed attempt,
and the run returns false after the third failed attempt. -/
theorem c4_downloadImage :
    (∀ env : DownloadEnv, env.pre 1 = true →
      downloadImage env 3 = ⟨false, 0, []⟩) ∧
    (∀ env : DownloadEnv, env.pre 1 = false → env.outcome 1 = .canceled →
      downloadImage env 3 = ⟨false, 1, []⟩) ∧
    (∀ env : DownloadEnv, env.pre 1 = false → env.outcome 1 = .netFail →
      env.post 1 = true → downloadImage env 3 = ⟨false, 1, []⟩) ∧
    (∀ env : DownloadEnv, (∀ k, env.pre k = false) → (∀ k, env.post k = false) →
      (∀ k, env.outcome k = .netFail) →
      downloadImage env 3 = ⟨false, 3, [1000, 2000]⟩) ∧
    (∀ env : DownloadEnv, (∀ k, env.pre k = false) → (∀ k, env.post k = false) →
      env.outcome 1 = .netFail → env.outcome 2 = .ok →
      downloadImage env 3 = ⟨true, 2, [1000]⟩) := by
  refine ⟨?_, ?_, ?_, ?_, ?_⟩
  · intro env h
    simp [downloadImage, downloadImageGo, h]
  · intro env h1 h2
    simp [downloadImage, downloadImageGo, h1, h2]
  · intro env h1 h2 h3
    simp [downloadImage, downloadImageGo, h1, h2, h3]
  · intro env hpre hpost hout
    simp [downloadImage, downloadImageGo, hpre, hpost, hout]
  · intro env hpre hpost h1 h2
    simp [downloadImage, downloadImageGo, hpre, hpost, h1, h2]

/-- Witness for C4: each retry/cancellation discipline conjunct evaluated on
a concrete oracle history. -/
theorem c4_downloadImage_witness :
    downloadImage envPreAborted 3 = ⟨false, 0, []⟩ ∧
    downloadImage envCanceledFlight 3 = ⟨false, 1, []⟩ ∧
    downloadImage envFailThenAborted 3 = ⟨false, 1, []⟩ ∧
    downloadImage envAllFail 3 = ⟨false, 3, [1000, 2000]⟩ ∧
    downloadImage envSecondOk 3 = ⟨true, 2, [1000]⟩ := by
  exact ⟨c4_downloadImage.1 envPreAborted rfl,
    c4_downloadImage.2.1 envCanceledFlight rfl rfl,
    c4_downloadImage.2.2.1 envFailThenAborted rfl rfl rfl,
    c4_downloadImage.2.2.2.1 envAllFail (fun _ => rfl) (fun _ => rfl) (fun _ => rfl),
    c4_downloadImage.2.2.2.2 envSecondOk (fun _ => rfl) (fun _ => rfl) rfl rfl⟩

/-! ## Claims C8 and C9: the cancel command, the cancel button, and
text submissions while Processing -/

/-- Claim C8 counterexample: with a Processing session holding a live,
un-aborted controller, the `/cancel` command does not set the cancellation
token (and changes nothing at all): it replies that a job is running. -/
theorem c8_counterexample :
    cancelCommand sessionProcessing = (sessionProcessing, .jobRunning) ∧
    sessionProcessing.abortFlag = some false := by
  exact ⟨rfl, rfl⟩

/-- Claim C8 (amended): when the session is Processing the `/cancel` command
leaves the session (state, pending job, cancellation token) untouched and
only replies that a job is running; otherwise it resets the session to Idle
and clears the pending job. Cancelling a running download is done by the
separate `cancel_download` button action, which aborts the controller when
one exists and is a no-op otherwise. -/
theorem c8_cancel_handlers (s : Session) :
    (s.state = .processing → cancelCommand s = (s, .jobRunning)) ∧
    (s.state ≠ .processing →
      cancelCommand s = ({ s with state := .idle, pendingJob := none }, .cancelledReady)) ∧
    (∀ b, s.abortFlag = some b →
      cancelDownloadAction s = { s with abortFlag := some true }) ∧
    (s.abortFlag = none → cancelDownloadAction s = s) := by
  refine ⟨?_, ?_, ?_, ?_⟩
  · intro h
    simp [cancelCommand, h]
  · intro h
    simp [cancelCommand, h]
  · intro b h
    simp [cancelDownloadAction, h]
  · intro h
    simp [cancelDownloadAction, h]

/-- Witness for C8 (amended): the command on a Processing and on an Idle
session, and the button action on a live controller. -/
theorem c8_cancel_handlers_witness :
    cancelCommand sessionProcessing = (sessionProcessing, .jobRunning) ∧
    cancelCommand sessionIdle =
      ({ sessionIdle with state := .idle, pendingJob := none }, .cancelledReady) ∧
    cancelDownloadAction sessionProcessing =
      { sessionProcessing with abortFlag := some true } := by
  exact ⟨(c8_cancel_handlers sessionProcessing).1 rfl,
    (c8_cancel_handlers sessionIdle).2.1 (by simp [sessionIdle]),
    (c8_cancel_handlers sessionProcessing).2.2.1 false rfl⟩

/-- Claim C9: a text submission while the session is Processing is rejected
with the "already processing" reply and the session record — state, pending
job data, and cancellation token — is returned exactly unchanged. -/
theorem c9_processing_rejection (session : Session) (text : String)
    (defaultNameOf : List String → String)
    (h : session.state = .processing) :
    textHandler session text defaultNameOf = .ok (session, .alreadyProcessing) := by
  unfold textHandler
  rw [h]
  simp

/-- Witness for C9 on a concrete Processing session and submission. -/
theorem c9_processing_rejection_witness :
    textHandler sessionProcessing "http://example.com/other" (fun _ => "d")
      = .ok (sessionProcessing, .alreadyProcessing) := by
  exact c9_processing_rejection sessionProcessing "http://example.com/other"
    (fun _ => "d") rfl

/-- Witness for C7 at a concrete oracle: the first rule throws (swallowed),
the second yields five images and is returned with them. -/
theorem c7_findWorkingStrategy_witness :
    extractFixture ruleB = .ok ["u1", "u2", "u3", "u4", "u5"] ∧
    5 ≤ (["u1", "u2", "u3", "u4", "u5"] : List String).length ∧
    ∃ l1 d l2, registryFixture = l1 ++ (d, ruleB) :: l2 ∧
      ∀ e ∈ l1, strategyWorks extractFixture 5 e.2 = false := by
  exact (c7_findWorkingStrategy extractFixture registryFixture 5).1
    ruleB ["u1", "u2", "u3", "u4", "u5"] (by rfl)

end GalleryBot
